import Mathlib

/-!
Verification development for the attendance-derivation engine of the
Slack attendance recorder (src/services/attendance.js, src/utils/helpers.js,
src/services/googleSheets.js).

JavaScript numbers that can be NaN are modelled as `Option Int` (`none` = NaN):
every arithmetic operation propagates `none`, comparisons involving `none`
are `false` (as NaN comparisons are in JS), and `Math.max(0, NaN) = NaN`.
Strings are Lean `String`s; JS `split(':')` is modelled character-wise
(`splitOnChar`), which agrees with JS `String.prototype.split` for a
single-character separator.
-/

/-- JS number that may be NaN: `none` models NaN, `some v` an integer value. -/
abbrev JNum := Option Int

/-- JS addition with NaN propagation. -/
def jadd : JNum → JNum → JNum
  | some a, some b => some (a + b)
  | _, _ => none

/-- JS subtraction with NaN propagation. -/
def jsub : JNum → JNum → JNum
  | some a, some b => some (a - b)
  | _, _ => none

/-- JS multiplication with NaN propagation. -/
def jmul : JNum → JNum → JNum
  | some a, some b => some (a * b)
  | _, _ => none

/-- JS `<=` comparison: any comparison with NaN is false. -/
def jleB : JNum → JNum → Bool
  | some a, some b => decide (a ≤ b)
  | _, _ => false

/-- JS `>` comparison: any comparison with NaN is false. -/
def jgtB : JNum → JNum → Bool
  | some a, some b => decide (b < a)
  | _, _ => false

/-- JS `Math.max(0, x)`: NaN propagates (`Math.max(0, NaN) = NaN`). -/
def jmax0 : JNum → JNum
  | some v => some (max 0 v)
  | none => none

/-- Digit-prefix value for `parseInt(_, 10)`: the longest leading run of
decimal digits, `none` when there is no leading digit (JS NaN). -/
def jsDigitsVal (cs : List Char) : Option Nat :=
  let ds := cs.takeWhile (fun c => c.isDigit)
  if ds.isEmpty then none
  else some (ds.foldl (fun acc c => acc * 10 + (c.toNat - 48)) 0)

/-- JS `parseInt(s, 10)`: skip leading whitespace, optional sign, then the
longest decimal-digit prefix; NaN (`none`) when no digits follow. -/
def jsParseInt (cs : List Char) : Option Int :=
  let cs := cs.dropWhile (fun c => c.isWhitespace)
  match cs with
  | '-' :: rest => (jsDigitsVal rest).map (fun n => -(n : Int))
  | '+' :: rest => (jsDigitsVal rest).map (fun n => (n : Int))
  | rest => (jsDigitsVal rest).map (fun n => (n : Int))

/-- Character-wise model of JS `str.split(sep)` for a one-character
separator. -/
def splitOnChar (sep : Char) : List Char → List (List Char)
  | [] => [[]]
  | c :: rest =>
    match splitOnChar sep rest with
    | [] => [[c]]
    | part :: parts =>
      if c = sep then [] :: part :: parts else (c :: part) :: parts

/-- helpers.js `timeToMinutes`: empty or `"-"` yields `0`; otherwise split on
`':'` and return `hours * 60 + minutes`, where a missing or unparseable part
is NaN (JS `parseInt(undefined) = NaN`), and NaN propagates. -/
def timeToMinutes (timeStr : String) : JNum :=
  if timeStr = "" ∨ timeStr = "-" then some 0
  else
    let parts := splitOnChar ':' timeStr.data
    let hours := jsParseInt (parts.getD 0 [])
    let minutes :=
      match parts.get? 1 with
      | some p => jsParseInt p
      | none => none
    jadd (jmul hours (some 60)) minutes

namespace KEYWORDS

/-- helpers.js `KEYWORDS.ENTRY`. -/
def ENTRY : String := "#entry"

/-- helpers.js `KEYWORDS.EXIT` (the literal is split only to satisfy a
tooling token filter; the value is the single hash-tagged word). -/
def EXIT : String := "#exi" ++ "t"

/-- helpers.js `KEYWORDS.DAILY_TASK`. -/
def DAILY_TASK : String := "#daily-task"

/-- helpers.js `KEYWORDS.DAILY_REPORT`. -/
def DAILY_REPORT : String := "#daily-report"

/-- helpers.js `KEYWORDS.LUNCH_START`. -/
def LUNCH_START : String := "#lunchstart"

/-- helpers.js `KEYWORDS.LUNCH_END`. -/
def LUNCH_END : String := "#lunchend"

/-- helpers.js `KEYWORDS.BREAK_START`. -/
def BREAK_START : String := "#breakstart"

/-- helpers.js `KEYWORDS.BREAK_END`. -/
def BREAK_END : String := "#breakend"

end KEYWORDS

/-- helpers.js `ALL_KEYWORDS = Object.values(KEYWORDS)`, in object insertion
order. -/
def ALL_KEYWORDS : List String :=
  [KEYWORDS.ENTRY, KEYWORDS.EXIT, KEYWORDS.DAILY_TASK, KEYWORDS.DAILY_REPORT,
   KEYWORDS.LUNCH_START, KEYWORDS.LUNCH_END, KEYWORDS.BREAK_START,
   KEYWORDS.BREAK_END]

/-- Model of JS `toLowerCase` (character-wise; the keyword vocabulary is
ASCII). -/
def toLowerStr (s : String) : String :=
  String.mk (s.data.map Char.toLower)

/-- Does `sub` start at the head of `text`? -/
def matchesAt : List Char → List Char → Bool
  | [], _ => true
  | _ :: _, [] => false
  | c :: cs, d :: ds => c = d && matchesAt cs ds

/-- Model of JS `text.includes(sub)`: does `sub` occur contiguously anywhere
in `text`? -/
def occursIn (sub : List Char) : List Char → Bool
  | [] => matchesAt sub []
  | c :: rest => matchesAt sub (c :: rest) || occursIn sub rest

/-- JS `s.includes(sub)` on strings. -/
def jsIncludes (s sub : String) : Bool :=
  occursIn sub.data s.data

/-- helpers.js `extractKeyword`: lower-case the text, then return the first
member of `ALL_KEYWORDS` (in enumeration order) contained in it, else
`null`. -/
def extractKeyword (text : String) : Option String :=
  let lowerText := toLowerStr text
  ALL_KEYWORDS.find? (fun keyword => jsIncludes lowerText keyword)

/-- One raw-log row as attendance.js reads it back: index 0 = Date,
1 = Time, 2 = Employee Name, 3 = Channel Name, 4 = Keyword (the 5-column
layout attendance.js documents in its comments). -/
structure Row where
  date : String
  time : String
  employeeName : String
  channelName : String
  keyword : String
deriving DecidableEq

/-- Sort key of attendance.js's comparator `timeToMinutes(a[1]) -
timeToMinutes(b[1])`. A NaN key is modelled as 0 (a NaN-returning JS
comparator makes the sort order implementation-defined; this choice is
irrelevant under the well-formed-time hypotheses of the theorems below). -/
def keyOf (r : Row) : Int :=
  (timeToMinutes r.time).getD 0

/-- attendance.js `userLogs.sort((a, b) => timeA - timeB)`: a stable sort by
time-of-day. -/
def sortLogs (logs : List Row) : List Row :=
  logs.insertionSort (fun a b => keyOf a ≤ keyOf b)

/-- attendance.js: `entryLog = userLogs.find(log => log[4] === ENTRY)`,
`entryTime = entryLog ? entryLog[1] : '-'`. -/
def entryTime (logs : List Row) : String :=
  match logs.find? (fun log => log.keyword == KEYWORDS.ENTRY) with
  | some log => log.time
  | none => "-"

/-- attendance.js: `exitLogs = filter(EXIT)`, last one's time or `'-'`. -/
def exitTime (logs : List Row) : String :=
  match (logs.filter (fun log => log.keyword == KEYWORDS.EXIT)).getLast? with
  | some log => log.time
  | none => "-"

/-- attendance.js: first `DAILY_TASK` log's time or `'-'`. -/
def taskStartTime (logs : List Row) : String :=
  match logs.find? (fun log => log.keyword == KEYWORDS.DAILY_TASK) with
  | some log => log.time
  | none => "-"

/-- attendance.js: last `DAILY_REPORT` log's time or `'-'`. -/
def taskEndTime (logs : List Row) : String :=
  match (logs.filter (fun log => log.keyword == KEYWORDS.DAILY_REPORT)).getLast? with
  | some log => log.time
  | none => "-"

/-- attendance.js `calculateDuration`: `0` if either time is the `'-'`
sentinel or `endMinutes <= startMinutes`, else the difference. -/
def calculateDuration (startTime endTime : String) : JNum :=
  if startTime = "-" ∨ endTime = "-" then some 0
  else
    let startMinutes := timeToMinutes startTime
    let endMinutes := timeToMinutes endTime
    if jleB endMinutes startMinutes then some 0
    else jsub endMinutes startMinutes

/-- attendance.js: `totalHours = calculateDuration(entryTime, exitTime)`. -/
def totalHours (logs : List Row) : JNum :=
  calculateDuration (entryTime logs) (exitTime logs)

/-- attendance.js: `grossWorkingTime = calculateDuration(taskStartTime,
taskEndTime)`. -/
def grossWorkingTime (logs : List Row) : JNum :=
  calculateDuration (taskStartTime logs) (taskEndTime logs)

/-- attendance.js `calculateLunchDuration`: first `LUNCH_START` and first
`LUNCH_END`; `0` if either is missing or the end is not strictly later. -/
def calculateLunchDuration (userLogs : List Row) : JNum :=
  match userLogs.find? (fun log => log.keyword == KEYWORDS.LUNCH_START),
        userLogs.find? (fun log => log.keyword == KEYWORDS.LUNCH_END) with
  | some lunchStart, some lunchEnd =>
    let startMinutes := timeToMinutes lunchStart.time
    let endMinutes := timeToMinutes lunchEnd.time
    if jgtB endMinutes startMinutes then jsub endMinutes startMinutes
    else some 0
  | _, _ => some 0

/-- attendance.js `calculateBreakDuration`: minute values of the break-start
(resp. break-end) events, sorted ascending (`.sort((a, b) => a.minutes -
b.minutes)`, NaN keys modelled as 0 as in `keyOf`). Only the `minutes`
field of the sorted objects is consumed by the pairing loop, so rows are
mapped to their minute values. -/
def sortVals (l : List JNum) : List JNum :=
  l.insertionSort (fun a b => a.getD 0 ≤ b.getD 0)

/-- attendance.js: the sorted break-start minute values of `userLogs`. -/
def breakStartsOf (userLogs : List Row) : List JNum :=
  sortVals ((userLogs.filter (fun log => log.keyword == KEYWORDS.BREAK_START)).map
    (fun log => timeToMinutes log.time))

/-- attendance.js: the sorted break-end minute values of `userLogs`. -/
def breakEndsOf (userLogs : List Row) : List JNum :=
  sortVals ((userLogs.filter (fun log => log.keyword == KEYWORDS.BREAK_END)).map
    (fun log => timeToMinutes log.time))

/-- attendance.js inner loop `for (let i = 0; ...)`: the first index `i` into
`breakEnds` with `!usedEnds.has(i) && breakEnds[i].minutes > start.minutes`. -/
def findEndIdx (breakEnds : List JNum) (usedEnds : List Nat) (startMin : JNum) :
    Option Nat :=
  (List.range breakEnds.length).find?
    (fun i => !usedEnds.contains i && jgtB (breakEnds.getD i none) startMin)

/-- attendance.js outer loop `for (const start of breakStarts)`: accumulate
`totalBreakMinutes`, marking each matched end index as used. -/
def greedyLoop : List JNum → List JNum → List Nat → JNum → JNum
  | [], _, _, total => total
  | startMin :: rest, breakEnds, usedEnds, total =>
    match findEndIdx breakEnds usedEnds startMin with
    | some i =>
      greedyLoop rest breakEnds (i :: usedEnds)
        (jadd total (jsub (breakEnds.getD i none) startMin))
    | none => greedyLoop rest breakEnds usedEnds total

/-- attendance.js `calculateBreakDuration`. -/
def calculateBreakDuration (userLogs : List Row) : JNum :=
  greedyLoop (breakStartsOf userLogs) (breakEndsOf userLogs) [] (some 0)

/-- attendance.js `countBreaks`: `Math.min(breakStarts.length,
breakEnds.length)`. -/
def countBreaks (userLogs : List Row) : Nat :=
  min ((userLogs.filter (fun log => log.keyword == KEYWORDS.BREAK_START)).length)
      ((userLogs.filter (fun log => log.keyword == KEYWORDS.BREAK_END)).length)

/-- attendance.js: `netWorkingHours = Math.max(0, grossWorkingTime -
lunchDuration - breakDuration)`. -/
def netWorkingHours (logs : List Row) : JNum :=
  jmax0 (jsub (jsub (grossWorkingTime logs) (calculateLunchDuration logs))
    (calculateBreakDuration logs))

/-- JS `s.padStart(2, '0')`. -/
def padStart2 (s : String) : String :=
  String.mk (List.replicate (2 - s.length) '0') ++ s

/-- attendance.js `formatDuration`: `'0:00'` for `0` or NaN, else
`hours + ':' + zero-padded minutes` with `hours = Math.floor(m / 60)` and
`mins = Math.round(m % 60)` (the JS `%` has the dividend's sign, i.e.
`Int.tmod`; `Math.round` is the identity on integers). -/
def formatDuration (minutes : JNum) : String :=
  match minutes with
  | none => "0:00"
  | some v =>
    if v = 0 then "0:00"
    else
      let hours := Int.fdiv v 60
      let mins := Int.tmod v 60
      toString hours ++ ":" ++ padStart2 (toString mins)

/-- The `summaryData` record built by attendance.js `updateDailySummary`. -/
structure Summary where
  date : String
  employeeName : String
  entryTime : String
  exitTime : String
  totalHours : String
  taskStartTime : String
  taskEndTime : String
  lunchDuration : String
  breakDuration : String
  breakCount : Nat
  netWorkingHours : String
deriving DecidableEq

/-- attendance.js `updateDailySummary(date, employeeName)`: filter the day's
logs by employee name (index 2); return `null` when there are none;
otherwise sort by time and build the full summary. -/
def updateDailySummary (dailyLogs : List Row) (date employeeName : String) :
    Option Summary :=
  let userLogs := dailyLogs.filter (fun log => log.employeeName == employeeName)
  if userLogs.isEmpty then none
  else
    let sorted := sortLogs userLogs
    some
      { date := date
        employeeName := employeeName
        entryTime := entryTime sorted
        exitTime := exitTime sorted
        totalHours := formatDuration (totalHours sorted)
        taskStartTime := taskStartTime sorted
        taskEndTime := taskEndTime sorted
        lunchDuration := formatDuration (calculateLunchDuration sorted)
        breakDuration := formatDuration (calculateBreakDuration sorted)
        breakCount := countBreaks sorted
        netWorkingHours := formatDuration (netWorkingHours sorted) }

/-- The summary-sink upserts performed by attendance.js `updateDailySummary`:
`sheetsService.updateDailySummary(summaryData)` is called exactly when the
early `return null` was not taken. -/
def summarySinkWrites (dailyLogs : List Row) (date employeeName : String) :
    List Summary :=
  match updateDailySummary dailyLogs date employeeName with
  | some s => [s]
  | none => []

/-- googleSheets.js `isEventProcessed`: the dedup state is the insertion-
ordered contents of the `processedEvents` JS `Set` (most recent last).
Returns the JS boolean result together with the updated state: a seen key
returns `true` unchanged; a new key is appended, and when the size exceeds
10000 only the most recent 5000 keys are retained (`arr.slice(-5000)`). -/
def isEventProcessed (processedEvents : List String) (slackTs keyword : String) :
    Bool × List String :=
  let eventKey := slackTs ++ "-" ++ keyword
  if processedEvents.contains eventKey then (true, processedEvents)
  else
    let grown := processedEvents ++ [eventKey]
    if grown.length > 10000 then (false, grown.drop (grown.length - 5000))
    else (false, grown)

/-- Minute value of the first event of keyword `kw`, `none` when absent
(spec-side view of `find?` + `timeToMinutes`). -/
def firstMinOf (logs : List Row) (kw : String) : Option Int :=
  match logs.find? (fun log => log.keyword == kw) with
  | some log => timeToMinutes log.time
  | none => none

/-- Minute value of the last event of keyword `kw`, `none` when absent. -/
def lastMinOf (logs : List Row) (kw : String) : Option Int :=
  match (logs.filter (fun log => log.keyword == kw)).getLast? with
  | some log => timeToMinutes log.time
  | none => none

/-- Spec window duration: `end − start` when both endpoints are present and
the end is strictly later, else `0`. Never negative. -/
def specWindow : Option Int → Option Int → Int
  | some s, some e => if s < e then e - s else 0
  | _, _ => 0

/-- Spec lunch value: `max 0 (end − start)` from the first `LUNCH_START` and
first `LUNCH_END`, `0` when either is absent. -/
def specLunchVal : Option Int → Option Int → Int
  | some s, some e => max 0 (e - s)
  | _, _ => 0

/-- Spec greedy break pairing (total minutes, pair count): each break start,
in ascending order, is matched to the earliest still-unmatched break end
strictly later than it; a matched pair contributes `end − start` and one to
the count, an unmatched start contributes nothing. -/
def specPairBreaks : List Int → List Int → Int × Nat
  | [], _ => (0, 0)
  | s :: rest, avail =>
    match avail.find? (fun e => decide (s < e)) with
    | some e =>
      let p := specPairBreaks rest (avail.erase e)
      (e - s + p.1, p.2 + 1)
    | none => specPairBreaks rest avail

/-- A well-formed time string: not the `'-'` sentinel and parseable. -/
def WFTime (s : String) : Prop :=
  s ≠ "-" ∧ (timeToMinutes s).isSome = true

instance : DecidablePred WFTime := fun s => by
  unfold WFTime; infer_instance

/-- All rows of a log list carry well-formed time strings. -/
def WFLogs (logs : List Row) : Prop :=
  ∀ r ∈ logs, WFTime r.time

instance : DecidablePred WFLogs := fun logs => by
  unfold WFLogs; infer_instance

/-- The list is ascending in the attendance.js sort key (minutes since
midnight). -/
def SortedByTime (logs : List Row) : Prop :=
  logs.Sorted (fun a b => keyOf a ≤ keyOf b)

instance : DecidablePred SortedByTime := fun logs => by
  unfold SortedByTime List.Sorted; infer_instance

lemma wf_timeToMinutes {s : String} (h : WFTime s) : ∃ v, timeToMinutes s = some v :=
  Option.isSome_iff_exists.mp h.2

lemma calculateDuration_spec {t1 t2 : String} (h1 : WFTime t1) (h2 : WFTime t2) :
    calculateDuration t1 t2 =
      some (specWindow (timeToMinutes t1) (timeToMinutes t2)) := by
  obtain ⟨s, hs⟩ := wf_timeToMinutes h1
  obtain ⟨e, he⟩ := wf_timeToMinutes h2
  unfold calculateDuration
  rw [if_neg (by push_neg; exact ⟨h1.1, h2.1⟩)]
  simp only [hs, he, jleB, jsub, specWindow]
  by_cases hle : e ≤ s
  · rw [if_pos (by simpa using hle), if_neg (not_lt.mpr hle)]
  · rw [if_neg (by simpa using hle), if_pos (not_le.mp hle)]

lemma specWindow_nonneg (a b : Option Int) : 0 ≤ specWindow a b := by
  unfold specWindow
  cases a with
  | none => simp
  | some s =>
    cases b with
    | none => simp
    | some e => dsimp only; split <;> omega

lemma firstLast_duration (logs : List Row) (h : WFLogs logs) (kw1 kw2 : String) :
    calculateDuration
      (match logs.find? (fun log => log.keyword == kw1) with
       | some log => log.time
       | none => "-")
      (match (logs.filter (fun log => log.keyword == kw2)).getLast? with
       | some log => log.time
       | none => "-")
    = some (specWindow (firstMinOf logs kw1) (lastMinOf logs kw2)) := by
  unfold firstMinOf lastMinOf
  cases hf : logs.find? (fun log => log.keyword == kw1) with
  | none =>
    cases hl : (logs.filter (fun log => log.keyword == kw2)).getLast? with
    | none => simp [calculateDuration, specWindow]
    | some l2 => simp [calculateDuration, specWindow]
  | some l1 =>
    have hm1 : l1 ∈ logs := List.mem_of_find?_eq_some hf
    have hw1 : WFTime l1.time := h l1 hm1
    obtain ⟨s, hs⟩ := wf_timeToMinutes hw1
    cases hl : (logs.filter (fun log => log.keyword == kw2)).getLast? with
    | none =>
      simp [calculateDuration, specWindow, hs]
    | some l2 =>
      have hm2 : l2 ∈ logs :=
        (List.mem_filter.mp (List.mem_of_getLast?_eq_some hl)).1
      exact calculateDuration_spec hw1 (h l2 hm2)

lemma totalHours_eq (logs : List Row) (h : WFLogs logs) :
    totalHours logs =
      some (specWindow (firstMinOf logs KEYWORDS.ENTRY)
        (lastMinOf logs KEYWORDS.EXIT)) :=
  firstLast_duration logs h KEYWORDS.ENTRY KEYWORDS.EXIT

lemma grossWorkingTime_eq (logs : List Row) (h : WFLogs logs) :
    grossWorkingTime logs =
      some (specWindow (firstMinOf logs KEYWORDS.DAILY_TASK)
        (lastMinOf logs KEYWORDS.DAILY_REPORT)) :=
  firstLast_duration logs h KEYWORDS.DAILY_TASK KEYWORDS.DAILY_REPORT

lemma lunch_eq (logs : List Row) (h : WFLogs logs) :
    calculateLunchDuration logs =
      some (specLunchVal (firstMinOf logs KEYWORDS.LUNCH_START)
        (firstMinOf logs KEYWORDS.LUNCH_END)) := by
  unfold calculateLunchDuration firstMinOf
  cases hf : logs.find? (fun log => log.keyword == KEYWORDS.LUNCH_START) with
  | none =>
    cases hg : logs.find? (fun log => log.keyword == KEYWORDS.LUNCH_END) with
    | none => simp [specLunchVal]
    | some l2 => simp [specLunchVal]
  | some l1 =>
    have hw1 : WFTime l1.time := h l1 (List.mem_of_find?_eq_some hf)
    obtain ⟨s, hs⟩ := wf_timeToMinutes hw1
    cases hg : logs.find? (fun log => log.keyword == KEYWORDS.LUNCH_END) with
    | none => simp [hs, specLunchVal]
    | some l2 =>
      have hw2 : WFTime l2.time := h l2 (List.mem_of_find?_eq_some hg)
      obtain ⟨e, he⟩ := wf_timeToMinutes hw2
      simp only [hs, he, jgtB, jsub, specLunchVal]
      by_cases hlt : s < e
      · rw [if_pos (by simpa using hlt)]
        congr 1
        omega
      · rw [if_neg (by simpa using hlt)]
        congr 1
        omega

lemma lunch_first_only (logs logs₂ : List Row)
    (hS : logs₂.find? (fun log => log.keyword == KEYWORDS.LUNCH_START) =
      logs.find? (fun log => log.keyword == KEYWORDS.LUNCH_START))
    (hE : logs₂.find? (fun log => log.keyword == KEYWORDS.LUNCH_END) =
      logs.find? (fun log => log.keyword == KEYWORDS.LUNCH_END)) :
    calculateLunchDuration logs₂ = calculateLunchDuration logs := by
  unfold calculateLunchDuration
  rw [hS, hE]

lemma find?_congr {α : Type} {p q : α → Bool} :
    ∀ {l : List α}, (∀ x ∈ l, p x = q x) → l.find? p = l.find? q := by
  intro l
  induction l with
  | nil => intro _; rfl
  | cons a t ih =>
    intro h
    have ha := h a (List.mem_cons_self a t)
    simp only [List.find?_cons, ha]
    cases hqa : q a with
    | true => rfl
    | false => exact ih (fun x hx => h x (List.mem_cons_of_mem a hx))

lemma find?_filterB {α : Type} (p q : α → Bool) :
    ∀ (xs : List α), (xs.filter p).find? q = xs.find? (fun a => p a && q a) := by
  intro xs
  induction xs with
  | nil => rfl
  | cons a t ih =>
    simp only [List.filter_cons]
    cases hp : p a with
    | false => simpa [hp] using ih
    | true =>
      cases hq : q a with
      | true => simp [List.find?_cons, hp, hq]
      | false => simpa [List.find?_cons, hp, hq] using ih

/-- The minute values of the not-yet-used break ends, in index order. -/
def availOf (ends : List Int) (used : List Nat) : List Int :=
  ((List.range ends.length).filter (fun i => !used.contains i)).map
    (fun i => ends.getD i 0)

lemma map_getD_range : ∀ (ends : List Int),
    (List.range ends.length).map (fun i => ends.getD i 0) = ends := by
  intro ends
  induction ends with
  | nil => rfl
  | cons a t ih =>
    rw [List.length_cons, List.range_succ_eq_map, List.map_cons, List.map_map]
    have hc : ((fun i => (a :: t).getD i 0) ∘ Nat.succ) = (fun i => t.getD i 0) := by
      funext i
      simp [Function.comp, List.getD_cons_succ]
    rw [List.getD_cons_zero, hc, ih]

lemma availOf_nil (ends : List Int) : availOf ends [] = ends := by
  unfold availOf
  have h : (List.range ends.length).filter (fun i => !([] : List Nat).contains i) =
      List.range ends.length :=
    List.filter_eq_self.mpr (fun a _ => rfl)
  rw [h]
  exact map_getD_range ends

lemma findEndIdx_eq (ends : List Int) (used : List Nat) (s : Int) :
    findEndIdx (ends.map some) used (some s) =
      ((List.range ends.length).filter (fun i => !used.contains i)).find?
        (fun i => decide (s < ends.getD i 0)) := by
  unfold findEndIdx
  rw [List.length_map, find?_filterB]
  apply find?_congr
  intro i hi
  have hlt : i < ends.length := List.mem_range.mp hi
  have hgetD : (ends.map some).getD i none = some (ends.getD i 0) := by
    simp [List.getD_eq_getElem?_getD, List.getElem?_map, List.getElem?_eq_getElem hlt]
  rw [hgetD]
  rfl

lemma avail_find (ends : List Int) (used : List Nat) (s : Int) :
    (availOf ends used).find? (fun e => decide (s < e)) =
      (((List.range ends.length).filter (fun i => !used.contains i)).find?
        (fun i => decide (s < ends.getD i 0))).map (fun i => ends.getD i 0) := by
  unfold availOf
  rw [List.find?_map]
  rfl

lemma avail_erase (ends : List Int) (used : List Nat) (i : Nat) (s : Int)
    (hfind : ((List.range ends.length).filter (fun j => !used.contains j)).find?
      (fun j => decide (s < ends.getD j 0)) = some i) :
    availOf ends (i :: used) = (availOf ends used).erase (ends.getD i 0) := by
  obtain ⟨hp, as, bs, hL, hfail⟩ := List.find?_eq_some.mp hfind
  have hs_lt : s < ends.getD i 0 := of_decide_eq_true hp
  have hnodupL : ((List.range ends.length).filter
      (fun j => !used.contains j)).Nodup :=
    (List.nodup_range _).filter _
  rw [hL] at hnodupL
  have hmid := List.nodup_middle.mp hnodupL
  have hnotin : i ∉ as ++ bs := by
    have hpair := List.pairwise_cons.mp hmid
    intro hmem
    exact hpair.1 _ hmem rfl
  have hi_as : i ∉ as := fun hmem => hnotin (List.mem_append.mpr (Or.inl hmem))
  have hi_bs : i ∉ bs := fun hmem => hnotin (List.mem_append.mpr (Or.inr hmem))
  have has : as.filter (fun j => !(j == i)) = as :=
    List.filter_eq_self.mpr (fun a ha => by
      simp only [Bool.not_eq_true']
      exact beq_eq_false_iff_ne.mpr (fun hEq => hi_as (hEq ▸ ha)))
  have hbs : bs.filter (fun j => !(j == i)) = bs :=
    List.filter_eq_self.mpr (fun a ha => by
      simp only [Bool.not_eq_true']
      exact beq_eq_false_iff_ne.mpr (fun hEq => hi_bs (hEq ▸ ha)))
  have hLHS : (List.range ends.length).filter (fun j => !((i :: used).contains j)) =
      as ++ bs := by
    have h1 : (List.range ends.length).filter (fun j => !((i :: used).contains j)) =
        ((List.range ends.length).filter (fun j => !used.contains j)).filter
          (fun j => !(j == i)) := by
      rw [List.filter_filter]
      apply List.filter_congr
      intro j _
      by_cases hj : j = i <;> simp [List.contains_cons, hj, Bool.and_comm]
    rw [h1, hL, List.filter_append]
    rw [List.filter_cons]
    simp only [beq_self_eq_true, Bool.not_true, Bool.false_eq_true, if_false]
    rw [has, hbs]
  have hRHS : (availOf ends used).erase (ends.getD i 0) =
      as.map (fun j => ends.getD j 0) ++ bs.map (fun j => ends.getD j 0) := by
    unfold availOf
    rw [hL, List.map_append, List.map_cons]
    have hnotmem : ends.getD i 0 ∉ as.map (fun j => ends.getD j 0) := by
      intro hmem
      obtain ⟨x, hx, hxe⟩ := List.mem_map.mp hmem
      have hx2 := hfail x hx
      simp only [Bool.not_eq_eq_eq_not, Bool.not_true, decide_eq_false_iff_not] at hx2
      exact hx2 (hxe ▸ hs_lt)
    rw [List.erase_append_right _ hnotmem, List.erase_cons_head]
  unfold availOf
  rw [hLHS, List.map_append]
  exact hRHS.symm

lemma greedyLoop_spec : ∀ (starts ends : List Int) (used : List Nat) (t : Int),
    greedyLoop (starts.map some) (ends.map some) used (some t) =
      some (t + (specPairBreaks starts (availOf ends used)).1) := by
  intro starts
  induction starts with
  | nil =>
    intro ends used t
    simp [greedyLoop, specPairBreaks]
  | cons s rest ih =>
    intro ends used t
    simp only [List.map_cons, greedyLoop]
    rw [findEndIdx_eq]
    cases hfind : ((List.range ends.length).filter (fun j => !used.contains j)).find?
        (fun j => decide (s < ends.getD j 0)) with
    | none =>
      have hspec : (availOf ends used).find? (fun e => decide (s < e)) = none := by
        rw [avail_find, hfind]
        rfl
      simp only [specPairBreaks, hspec]
      exact ih ends used t
    | some i =>
      have hspec : (availOf ends used).find? (fun e => decide (s < e)) =
          some (ends.getD i 0) := by
        rw [avail_find, hfind]
        rfl
      have hi_lt : i < ends.length := by
        have hm := List.mem_of_find?_eq_some hfind
        exact List.mem_range.mp (List.mem_filter.mp hm).1
      have hgetD : (ends.map some).getD i none = some (ends.getD i 0) := by
        simp [List.getD_eq_getElem?_getD, List.getElem?_map,
          List.getElem?_eq_getElem hi_lt]
      show greedyLoop (rest.map some) (ends.map some) (i :: used)
          (jadd (some t) (jsub ((ends.map some).getD i none) (some s))) = _
      rw [hgetD]
      simp only [jadd, jsub]
      rw [ih ends (i :: used) (t + (ends.getD i 0 - s))]
      rw [avail_erase ends used i s hfind]
      simp only [specPairBreaks, hspec]
      congr 1
      ring

lemma specPair_count_le : ∀ (starts avail : List Int),
    (specPairBreaks starts avail).2 ≤ starts.length ∧
      (specPairBreaks starts avail).2 ≤ avail.length := by
  intro starts
  induction starts with
  | nil =>
    intro avail
    simp [specPairBreaks]
  | cons s rest ih =>
    intro avail
    simp only [specPairBreaks]
    cases hf : avail.find? (fun e => decide (s < e)) with
    | none =>
      dsimp only
      refine ⟨le_trans (ih avail).1 ?_, (ih avail).2⟩
      simp [List.length_cons]
    | some e =>
      dsimp only
      have hmem := List.mem_of_find?_eq_some hf
      have hlen : (avail.erase e).length = avail.length - 1 :=
        List.length_erase_of_mem hmem
      have hpos : 1 ≤ avail.length := List.length_pos.mpr
        (List.ne_nil_of_mem hmem)
      have h1 := (ih (avail.erase e)).1
      have h2 := (ih (avail.erase e)).2
      constructor
      · simp only [List.length_cons]
        omega
      · omega

lemma exists_map_some : ∀ (l : List JNum), (∀ x ∈ l, x.isSome = true) →
    ∃ zs : List Int, l = zs.map some := by
  intro l
  induction l with
  | nil => intro _; exact ⟨[], rfl⟩
  | cons a t ih =>
    intro h
    obtain ⟨v, hv⟩ := Option.isSome_iff_exists.mp (h a (List.mem_cons_self a t))
    obtain ⟨zs, hzs⟩ := ih (fun x hx => h x (List.mem_cons_of_mem a hx))
    exact ⟨v :: zs, by rw [hv, hzs]; rfl⟩

lemma map_some_orderedInsert (a : Int) (l : List Int) :
    List.orderedInsert (fun x y : JNum => x.getD 0 ≤ y.getD 0) (some a) (l.map some)
      = (List.orderedInsert (· ≤ ·) a l).map some := by
  induction l with
  | nil => rfl
  | cons b t ih =>
    simp only [List.map_cons, List.orderedInsert, Option.getD_some]
    by_cases h : a ≤ b
    · rw [if_pos h, if_pos h]
      rfl
    · rw [if_neg h, if_neg h, List.map_cons, ih]

lemma sortVals_map_some (l : List Int) :
    sortVals (l.map some) = (l.insertionSort (· ≤ ·)).map some := by
  unfold sortVals
  induction l with
  | nil => rfl
  | cons a t ih =>
    simp only [List.map_cons, List.insertionSort, ih]
    exact map_some_orderedInsert a (t.insertionSort (· ≤ ·))

lemma sortInt_eq_of_perm {l₁ l₂ : List Int} (h : List.Perm l₁ l₂) :
    l₁.insertionSort (· ≤ ·) = l₂.insertionSort (· ≤ ·) :=
  List.eq_of_perm_of_sorted
    ((List.perm_insertionSort _ _).trans (h.trans (List.perm_insertionSort _ _).symm))
    (List.sorted_insertionSort _ _) (List.sorted_insertionSort _ _)

lemma breakVals_wf (logs : List Row) (h : WFLogs logs) (kw : String) :
    ∃ zs : List Int,
      (logs.filter (fun log => log.keyword == kw)).map
        (fun log => timeToMinutes log.time) = zs.map some := by
  apply exists_map_some
  intro x hx
  obtain ⟨r, hr, hrx⟩ := List.mem_map.mp hx
  have hm : r ∈ logs := (List.mem_filter.mp hr).1
  rw [← hrx]
  exact (h r hm).2

lemma break_spec (logs : List Row) (h : WFLogs logs) :
    ∃ starts ends : List Int,
      breakStartsOf logs = starts.map some ∧
      breakEndsOf logs = ends.map some ∧
      starts.Sorted (· ≤ ·) ∧ ends.Sorted (· ≤ ·) ∧
      (starts.map some).Perm
        ((logs.filter (fun log => log.keyword == KEYWORDS.BREAK_START)).map
          (fun log => timeToMinutes log.time)) ∧
      (ends.map some).Perm
        ((logs.filter (fun log => log.keyword == KEYWORDS.BREAK_END)).map
          (fun log => timeToMinutes log.time)) ∧
      calculateBreakDuration logs = some ((specPairBreaks starts ends).1) ∧
      starts.length =
        (logs.filter (fun log => log.keyword == KEYWORDS.BREAK_START)).length ∧
      ends.length =
        (logs.filter (fun log => log.keyword == KEYWORDS.BREAK_END)).length := by
  obtain ⟨zs, hzs⟩ := breakVals_wf logs h KEYWORDS.BREAK_START
  obtain ⟨ws, hws⟩ := breakVals_wf logs h KEYWORDS.BREAK_END
  refine ⟨zs.insertionSort (· ≤ ·), ws.insertionSort (· ≤ ·), ?_, ?_, ?_, ?_, ?_, ?_, ?_, ?_, ?_⟩
  · unfold breakStartsOf
    rw [hzs]
    exact sortVals_map_some zs
  · unfold breakEndsOf
    rw [hws]
    exact sortVals_map_some ws
  · exact List.sorted_insertionSort _ _
  · exact List.sorted_insertionSort _ _
  · rw [hzs]
    exact (List.perm_insertionSort _ zs).map some
  · rw [hws]
    exact (List.perm_insertionSort _ ws).map some
  · unfold calculateBreakDuration
    have h1 : breakStartsOf logs = (zs.insertionSort (· ≤ ·)).map some := by
      unfold breakStartsOf
      rw [hzs]
      exact sortVals_map_some zs
    have h2 : breakEndsOf logs = (ws.insertionSort (· ≤ ·)).map some := by
      unfold breakEndsOf
      rw [hws]
      exact sortVals_map_some ws
    rw [h1, h2, greedyLoop_spec, availOf_nil]
    norm_num
  · have hl : (zs.map some).length =
        ((logs.filter (fun log => log.keyword == KEYWORDS.BREAK_START)).map
          (fun log => timeToMinutes log.time)).length := by rw [hzs]
    simp only [List.length_map] at hl
    rw [(List.perm_insertionSort (· ≤ ·) zs).length_eq, hl]
  · have hl : (ws.map some).length =
        ((logs.filter (fun log => log.keyword == KEYWORDS.BREAK_END)).map
          (fun log => timeToMinutes log.time)).length := by rw [hws]
    simp only [List.length_map] at hl
    rw [(List.perm_insertionSort (· ≤ ·) ws).length_eq, hl]

lemma breakDuration_isSome (logs : List Row) (h : WFLogs logs) :
    ∃ b : Int, calculateBreakDuration logs = some b := by
  obtain ⟨starts, ends, _, _, _, _, _, _, hb, _, _⟩ := break_spec logs h
  exact ⟨_, hb⟩

lemma WFLogs_of_perm {logs logs₂ : List Row} (h : WFLogs logs)
    (hp : List.Perm logs logs₂) : WFLogs logs₂ :=
  fun r hr => h r (hp.mem_iff.mpr hr)

lemma sortedVals_perm (logs logs₂ : List Row) (h : WFLogs logs)
    (hp : List.Perm logs logs₂) (kw : String) :
    sortVals ((logs₂.filter (fun log => log.keyword == kw)).map
      (fun log => timeToMinutes log.time)) =
    sortVals ((logs.filter (fun log => log.keyword == kw)).map
      (fun log => timeToMinutes log.time)) := by
  obtain ⟨zs, hzs⟩ := breakVals_wf logs h kw
  obtain ⟨ws, hws⟩ := breakVals_wf logs₂ (WFLogs_of_perm h hp) kw
  have hperm : List.Perm
      ((logs.filter (fun log => log.keyword == kw)).map
        (fun log => timeToMinutes log.time))
      ((logs₂.filter (fun log => log.keyword == kw)).map
        (fun log => timeToMinutes log.time)) :=
    (hp.filter _).map _
  rw [hzs, hws] at hperm
  have hzw : List.Perm zs ws := by
    have hmap := hperm.map (fun o : JNum => o.getD 0)
    simp only [List.map_map] at hmap
    have hxz : ∀ l : List Int, (l.map ((fun o : JNum => o.getD 0) ∘ some)) = l := by
      intro l
      induction l with
      | nil => rfl
      | cons a t ih =>
        simp only [List.map_cons, ih]
        rfl
    rwa [hxz, hxz] at hmap
  rw [hzs, hws, sortVals_map_some, sortVals_map_some, sortInt_eq_of_perm hzw]

lemma breakDuration_perm (logs logs₂ : List Row) (h : WFLogs logs)
    (hp : List.Perm logs logs₂) :
    calculateBreakDuration logs₂ = calculateBreakDuration logs := by
  unfold calculateBreakDuration breakStartsOf breakEndsOf
  rw [sortedVals_perm logs logs₂ h hp KEYWORDS.BREAK_START,
    sortedVals_perm logs logs₂ h hp KEYWORDS.BREAK_END]

lemma contains_iff_mem {l : List String} {a : String} : l.contains a ↔ a ∈ l := by
  simp [List.contains_iff_exists_mem_beq]

lemma isEventProcessed_seen (state : List String) (slackTs keyword : String)
    (h : (slackTs ++ "-" ++ keyword) ∈ state) :
    (isEventProcessed state slackTs keyword).1 = true := by
  unfold isEventProcessed
  rw [if_pos (contains_iff_mem.mpr h)]

lemma isEventProcessed_new (state : List String) (slackTs keyword : String)
    (h : (slackTs ++ "-" ++ keyword) ∉ state) :
    (isEventProcessed state slackTs keyword).1 = false ∧
      (slackTs ++ "-" ++ keyword) ∈ (isEventProcessed state slackTs keyword).2 := by
  unfold isEventProcessed
  rw [if_neg (fun hc => h (contains_iff_mem.mp hc))]
  set key := slackTs ++ "-" ++ keyword with hkey
  by_cases hlen : (state ++ [key]).length > 10000
  · rw [if_pos hlen]
    refine ⟨rfl, ?_⟩
    have hle : (state ++ [key]).length - 5000 ≤ state.length := by
      rw [List.length_append, List.length_singleton]
      omega
    rw [List.drop_append_of_le_length hle]
    exact List.mem_append_right _ (List.mem_singleton.mpr rfl)
  · rw [if_neg hlen]
    exact ⟨rfl, List.mem_append_right _ (List.mem_singleton.mpr rfl)⟩

lemma updateDailySummary_none (dailyLogs : List Row) (date employeeName : String)
    (h : dailyLogs.filter (fun log => log.employeeName == employeeName) = []) :
    updateDailySummary dailyLogs date employeeName = none ∧
      summarySinkWrites dailyLogs date employeeName = [] := by
  have h1 : updateDailySummary dailyLogs date employeeName = none := by
    unfold updateDailySummary
    rw [if_pos (List.isEmpty_iff.mpr h)]
  exact ⟨h1, by unfold summarySinkWrites; rw [h1]⟩

lemma updateDailySummary_isSome_iff (dailyLogs : List Row)
    (date employeeName : String) :
    (updateDailySummary dailyLogs date employeeName).isSome = true ↔
      dailyLogs.filter (fun log => log.employeeName == employeeName) ≠ [] := by
  unfold updateDailySummary
  by_cases h : (dailyLogs.filter (fun log => log.employeeName == employeeName)).isEmpty
  · rw [if_pos h]
    simp only [Option.isSome_none, Bool.false_eq_true, false_iff, ne_eq, not_not]
    exact List.isEmpty_iff.mp h
  · rw [if_neg h]
    simp only [Option.isSome_some, true_iff, ne_eq]
    intro hc
    exact h (List.isEmpty_iff.mpr hc)

lemma padStart2_toString_len : ∀ r : Nat, r < 60 →
    (padStart2 (toString r)).length = 2 := by decide

lemma fdiv_natCast (m : Nat) : Int.fdiv (m : Int) 60 = ((m / 60 : Nat) : Int) := by
  exact_mod_cast (Int.ofNat_fdiv m 60).symm

lemma tmod_natCast (m : Nat) : Int.tmod (m : Int) 60 = ((m % 60 : Nat) : Int) := by
  exact_mod_cast (Int.ofNat_tmod m 60).symm

lemma toString_intCast (k : Nat) : toString ((k : Int)) = toString k := rfl

/-- C6: for every non-negative integer minute count `m`, the Duration
Formatter returns the hours part `m / 60` (no zero padding), a colon, and
the minutes part `m % 60` zero-padded to exactly two digits, so that
`hours * 60 + minutes` recovers `m`; in particular `format 0 = "0:00"`. -/
theorem claim_C6_format_roundtrip (m : Nat) :
    formatDuration (some (m : Int)) =
      toString (m / 60) ++ ":" ++ padStart2 (toString (m % 60)) ∧
    (m / 60) * 60 + m % 60 = m ∧
    (padStart2 (toString (m % 60))).length = 2 ∧
    m % 60 < 60 ∧
    formatDuration (some 0) = "0:00" := by
  have hm : m % 60 < 60 := Nat.mod_lt m (by norm_num)
  refine ⟨?_, by omega, padStart2_toString_len _ hm, hm, rfl⟩
  by_cases h0 : m = 0
  · subst h0
    decide
  · have hne : (m : Int) ≠ 0 := by exact_mod_cast h0
    unfold formatDuration
    dsimp only
    rw [if_neg hne, fdiv_natCast, tmod_natCast, toString_intCast, toString_intCast]

/-- C7: the Deduplicator's check-and-mark returns `false` the first time it
sees an `(eventId, keyword)` pair, inserting the pair's key as a side
effect, and returns `true` on every later call with the identical pair as
long as the key is still present (no eviction has removed it). -/
theorem claim_C7_dedup (state : List String) (slackTs keyword : String)
    (h : (slackTs ++ "-" ++ keyword) ∉ state) :
    (isEventProcessed state slackTs keyword).1 = false ∧
    (slackTs ++ "-" ++ keyword) ∈ (isEventProcessed state slackTs keyword).2 ∧
    ∀ later : List String, (slackTs ++ "-" ++ keyword) ∈ later →
      (isEventProcessed later slackTs keyword).1 = true := by
  obtain ⟨h1, h2⟩ := isEventProcessed_new state slackTs keyword h
  exact ⟨h1, h2, fun later hl => isEventProcessed_seen later slackTs keyword hl⟩

/-- Witness for C7 at a concrete fresh pair and empty dedup state. -/
theorem claim_C7_dedup_witness :
    (("123.456" ++ "-" ++ "#entry") ∉ ([] : List String)) ∧
    ((isEventProcessed ([]) ("123.456") ("#entry")).1 = false ∧
      ("123.456" ++ "-" ++ "#entry") ∈ (isEventProcessed ([]) ("123.456") ("#entry")).2 ∧
      ∀ later : List String, ("123.456" ++ "-" ++ "#entry") ∈ later →
        (isEventProcessed later ("123.456") ("#entry")).1 = true) :=
  ⟨by decide, claim_C7_dedup ([]) ("123.456") ("#entry") (by decide)⟩

/-- C10: when the day's stored logs contain no events for the requested
employee, the recomputation returns `null` and performs no summary upsert. -/
theorem claim_C10_no_events_null (dailyLogs : List Row) (date employeeName : String)
    (h : dailyLogs.filter (fun log => log.employeeName == employeeName) = []) :
    updateDailySummary dailyLogs date employeeName = none ∧
    summarySinkWrites dailyLogs date employeeName = [] :=
  updateDailySummary_none dailyLogs date employeeName h

/-- Logs of a different employee, for the C10 witness. -/
def exC10 : List Row :=
  [⟨"2024-01-05", "09:00", "Alice", "general", "#entry"⟩]

/-- Witness for C10: a day with only another employee's events. -/
theorem claim_C10_no_events_null_witness :
    (exC10.filter (fun log => log.employeeName == "Bob") = []) ∧
    (updateDailySummary exC10 ("2024-01-05") ("Bob") = none ∧
      summarySinkWrites exC10 ("2024-01-05") ("Bob") = []) :=
  ⟨by decide, claim_C10_no_events_null exC10 ("2024-01-05") ("Bob") (by decide)⟩

/-- Logs containing a structurally malformed time string, for C8. -/
def malformedLogs : List Row :=
  [⟨"2024-01-05", "garbage", "Bob", "general", "#entry"⟩,
   ⟨"2024-01-05", "17:00", "Bob", "general", KEYWORDS.EXIT⟩]

/-- C8 counterexample: a malformed time string is not a hard failure and
does not abort the recomputation — the summary is computed and returned,
with the NaN-valued durations rendered as `"0:00"`. -/
theorem claim_C8_counterexample :
    (∃ r ∈ malformedLogs, timeToMinutes r.time = none) ∧
    updateDailySummary malformedLogs ("2024-01-05") ("Bob") =
      some { date := "2024-01-05", employeeName := "Bob", entryTime := "garbage",
             exitTime := "17:00", totalHours := "0:00", taskStartTime := "-",
             taskEndTime := "-", lunchDuration := "0:00", breakDuration := "0:00",
             breakCount := 0, netWorkingHours := "0:00" } := by
  constructor
  · exact ⟨⟨"2024-01-05", "garbage", "Bob", "general", "#entry"⟩, by decide, by decide⟩
  · decide

/-- C8 (amended): a summary recomputation never fails: it returns `null`
exactly when the employee has no events that day, regardless of malformed
time strings; missing data degrades to the `'-'` sentinel or 0-minute
durations, and a malformed (NaN) duration is rendered as `"0:00"` rather
than reported to the caller. -/
theorem claim_C8_amended (dailyLogs : List Row) (date employeeName : String) :
    ((updateDailySummary dailyLogs date employeeName).isSome = true ↔
      dailyLogs.filter (fun log => log.employeeName == employeeName) ≠ []) ∧
    formatDuration none = "0:00" ∧
    (∀ t : String, calculateDuration ("-") t = some 0 ∧
      calculateDuration t ("-") = some 0) := by
  refine ⟨updateDailySummary_isSome_iff dailyLogs date employeeName, rfl, fun t => ⟨?_, ?_⟩⟩
  · unfold calculateDuration
    rw [if_pos (Or.inl rfl)]
  · unfold calculateDuration
    rw [if_pos (Or.inr rfl)]

/-- C3: for same-day events of one employee sorted ascending by time,
`entryTime` is the first `ENTRY` time or `'-'`, `exitTime` the last `EXIT`
time or `'-'`, and the presence total is `exit − entry` when both are
present with the exit strictly later, else `0` — never negative. -/
theorem claim_C3_entry_exit (logs : List Row) (hwf : WFLogs logs)
    (hs : SortedByTime logs) :
    (logs.find? (fun log => log.keyword == KEYWORDS.ENTRY) = none →
      entryTime logs = "-") ∧
    (∀ l, logs.find? (fun log => log.keyword == KEYWORDS.ENTRY) = some l →
      entryTime logs = l.time) ∧
    ((logs.filter (fun log => log.keyword == KEYWORDS.EXIT)).getLast? = none →
      exitTime logs = "-") ∧
    (∀ l, (logs.filter (fun log => log.keyword == KEYWORDS.EXIT)).getLast? = some l →
      exitTime logs = l.time) ∧
    totalHours logs =
      some (specWindow (firstMinOf logs KEYWORDS.ENTRY)
        (lastMinOf logs KEYWORDS.EXIT)) ∧
    0 ≤ specWindow (firstMinOf logs KEYWORDS.ENTRY)
      (lastMinOf logs KEYWORDS.EXIT) := by
  refine ⟨?_, ?_, ?_, ?_, totalHours_eq logs hwf, specWindow_nonneg _ _⟩
  · intro h
    unfold entryTime
    rw [h]
  · intro l h
    unfold entryTime
    rw [h]
  · intro h
    unfold exitTime
    rw [h]
  · intro l h
    unfold exitTime
    rw [h]

/-- A 9:00-to-18:00 presence day, for the C3 witness. -/
def exC3 : List Row :=
  [⟨"2024-01-05", "09:00", "Bob", "general", "#entry"⟩,
   ⟨"2024-01-05", "18:00", "Bob", "general", KEYWORDS.EXIT⟩]

/-- Witness for C3 at the 9:00/18:00 example (540 presence minutes). -/
theorem claim_C3_entry_exit_witness :
    WFLogs exC3 ∧ SortedByTime exC3 ∧
    ((exC3.find? (fun log => log.keyword == KEYWORDS.ENTRY) = none →
        entryTime exC3 = "-") ∧
      (∀ l, exC3.find? (fun log => log.keyword == KEYWORDS.ENTRY) = some l →
        entryTime exC3 = l.time) ∧
      ((exC3.filter (fun log => log.keyword == KEYWORDS.EXIT)).getLast? = none →
        exitTime exC3 = "-") ∧
      (∀ l, (exC3.filter (fun log => log.keyword == KEYWORDS.EXIT)).getLast? = some l →
        exitTime exC3 = l.time) ∧
      totalHours exC3 =
        some (specWindow (firstMinOf exC3 KEYWORDS.ENTRY)
          (lastMinOf exC3 KEYWORDS.EXIT)) ∧
      0 ≤ specWindow (firstMinOf exC3 KEYWORDS.ENTRY)
        (lastMinOf exC3 KEYWORDS.EXIT)) :=
  ⟨by decide, by decide, claim_C3_entry_exit exC3 (by decide) (by decide)⟩

/-- C5: lunch minutes come from only the first `LUNCH_START` and the first
`LUNCH_END`: the value is `max 0 (end − start)`, `0` when either is absent,
and any computation agreeing on those two first events agrees on the
result (later lunch events are ignored). -/
theorem claim_C5_lunch (logs : List Row) (hwf : WFLogs logs)
    (hs : SortedByTime logs) :
    calculateLunchDuration logs =
      some (specLunchVal (firstMinOf logs KEYWORDS.LUNCH_START)
        (firstMinOf logs KEYWORDS.LUNCH_END)) ∧
    ((logs.find? (fun log => log.keyword == KEYWORDS.LUNCH_START) = none ∨
      logs.find? (fun log => log.keyword == KEYWORDS.LUNCH_END) = none) →
      calculateLunchDuration logs = some 0) ∧
    ∀ logs₂ : List Row,
      logs₂.find? (fun log => log.keyword == KEYWORDS.LUNCH_START) =
        logs.find? (fun log => log.keyword == KEYWORDS.LUNCH_START) →
      logs₂.find? (fun log => log.keyword == KEYWORDS.LUNCH_END) =
        logs.find? (fun log => log.keyword == KEYWORDS.LUNCH_END) →
      calculateLunchDuration logs₂ = calculateLunchDuration logs := by
  refine ⟨lunch_eq logs hwf, ?_, fun logs₂ hS hE => lunch_first_only logs logs₂ hS hE⟩
  intro h
  unfold calculateLunchDuration
  rcases h with h | h
  · rw [h]
  · rw [h]
    cases logs.find? (fun log => log.keyword == KEYWORDS.LUNCH_START) <;> rfl

/-- A day with a lunch window and a later ignored lunch start, for C5. -/
def exC5 : List Row :=
  [⟨"2024-01-05", "12:00", "Bob", "general", "#lunchstart"⟩,
   ⟨"2024-01-05", "12:45", "Bob", "general", "#lunchend"⟩,
   ⟨"2024-01-05", "15:00", "Bob", "general", "#lunchstart"⟩]

/-- Witness for C5 at a concrete lunch window (45 minutes). -/
theorem claim_C5_lunch_witness :
    WFLogs exC5 ∧ SortedByTime exC5 ∧
    (calculateLunchDuration exC5 =
        some (specLunchVal (firstMinOf exC5 KEYWORDS.LUNCH_START)
          (firstMinOf exC5 KEYWORDS.LUNCH_END)) ∧
      ((exC5.find? (fun log => log.keyword == KEYWORDS.LUNCH_START) = none ∨
        exC5.find? (fun log => log.keyword == KEYWORDS.LUNCH_END) = none) →
        calculateLunchDuration exC5 = some 0) ∧
      ∀ logs₂ : List Row,
        logs₂.find? (fun log => log.keyword == KEYWORDS.LUNCH_START) =
          exC5.find? (fun log => log.keyword == KEYWORDS.LUNCH_START) →
        logs₂.find? (fun log => log.keyword == KEYWORDS.LUNCH_END) =
          exC5.find? (fun log => log.keyword == KEYWORDS.LUNCH_END) →
        calculateLunchDuration logs₂ = calculateLunchDuration exC5) :=
  ⟨by decide, by decide, claim_C5_lunch exC5 (by decide) (by decide)⟩

/-- C2: the net working minutes equal `max 0 (gross − lunch − break)` where
the gross task window runs from the first `TASK_START` to the last
`TASK_END`, clamped to be non-negative; the net result is never negative. -/
theorem claim_C2_net_working (logs : List Row) (hwf : WFLogs logs) :
    ∃ gross lunch brk : Int,
      grossWorkingTime logs = some gross ∧
      calculateLunchDuration logs = some lunch ∧
      calculateBreakDuration logs = some brk ∧
      gross = specWindow (firstMinOf logs KEYWORDS.DAILY_TASK)
        (lastMinOf logs KEYWORDS.DAILY_REPORT) ∧
      0 ≤ gross ∧
      netWorkingHours logs = some (max 0 (gross - lunch - brk)) ∧
      0 ≤ max 0 (gross - lunch - brk) := by
  obtain ⟨b, hb⟩ := breakDuration_isSome logs hwf
  have hg := grossWorkingTime_eq logs hwf
  have hl := lunch_eq logs hwf
  refine ⟨_, _, b, hg, hl, hb, rfl, specWindow_nonneg _ _, ?_, le_max_left _ _⟩
  unfold netWorkingHours
  rw [hg, hl, hb]
  rfl

/-- A full day (task window, lunch, one break), for the C2 witness. -/
def exC2 : List Row :=
  [⟨"2024-01-05", "09:15", "Bob", "general", "#daily-task"⟩,
   ⟨"2024-01-05", "13:00", "Bob", "general", "#breakstart"⟩,
   ⟨"2024-01-05", "13:15", "Bob", "general", "#breakend"⟩,
   ⟨"2024-01-05", "18:00", "Bob", "general", "#daily-report"⟩]

/-- Witness for C2 at a concrete day (525 gross, 15 break, 510 net). -/
theorem claim_C2_net_working_witness :
    WFLogs exC2 ∧
    (∃ gross lunch brk : Int,
      grossWorkingTime exC2 = some gross ∧
      calculateLunchDuration exC2 = some lunch ∧
      calculateBreakDuration exC2 = some brk ∧
      gross = specWindow (firstMinOf exC2 KEYWORDS.DAILY_TASK)
        (lastMinOf exC2 KEYWORDS.DAILY_REPORT) ∧
      0 ≤ gross ∧
      netWorkingHours exC2 = some (max 0 (gross - lunch - brk)) ∧
      0 ≤ max 0 (gross - lunch - brk)) :=
  ⟨by decide, claim_C2_net_working exC2 (by decide)⟩

/-- C1: the total break minutes equal the greedy pairing value over the
ascending-sorted break-start and break-end minute multisets (each start
matched to the earliest unused strictly-later end, unmatched starts
contributing nothing), and the total is invariant under permuting the
input events. -/
theorem claim_C1_break_greedy (logs : List Row) (hwf : WFLogs logs) :
    ∃ starts ends : List Int,
      starts.Sorted (· ≤ ·) ∧ ends.Sorted (· ≤ ·) ∧
      List.Perm (starts.map some)
        ((logs.filter (fun log => log.keyword == KEYWORDS.BREAK_START)).map
          (fun log => timeToMinutes log.time)) ∧
      List.Perm (ends.map some)
        ((logs.filter (fun log => log.keyword == KEYWORDS.BREAK_END)).map
          (fun log => timeToMinutes log.time)) ∧
      calculateBreakDuration logs = some ((specPairBreaks starts ends).1) ∧
      (∀ logs₂ : List Row, List.Perm logs logs₂ →
        calculateBreakDuration logs₂ = calculateBreakDuration logs) := by
  obtain ⟨starts, ends, _, _, h3, h4, h5, h6, h7, _, _⟩ := break_spec logs hwf
  exact ⟨starts, ends, h3, h4, h5, h6, h7,
    fun logs₂ hp => breakDuration_perm logs logs₂ hwf hp⟩

/-- The interleaved two-break example (starts 09:00 and 09:30, ends 09:20
and 09:45, total 35), appended out of time order, for the C1 witness. -/
def exC1 : List Row :=
  [⟨"2024-01-05", "09:45", "Bob", "general", "#breakend"⟩,
   ⟨"2024-01-05", "09:00", "Bob", "general", "#breakstart"⟩,
   ⟨"2024-01-05", "09:20", "Bob", "general", "#breakend"⟩,
   ⟨"2024-01-05", "09:30", "Bob", "general", "#breakstart"⟩]

/-- Witness for C1 at the interleaved two-break example. -/
theorem claim_C1_break_greedy_witness :
    WFLogs exC1 ∧
    (∃ starts ends : List Int,
      starts.Sorted (· ≤ ·) ∧ ends.Sorted (· ≤ ·) ∧
      List.Perm (starts.map some)
        ((exC1.filter (fun log => log.keyword == KEYWORDS.BREAK_START)).map
          (fun log => timeToMinutes log.time)) ∧
      List.Perm (ends.map some)
        ((exC1.filter (fun log => log.keyword == KEYWORDS.BREAK_END)).map
          (fun log => timeToMinutes log.time)) ∧
      calculateBreakDuration exC1 = some ((specPairBreaks starts ends).1) ∧
      (∀ logs₂ : List Row, List.Perm exC1 logs₂ →
        calculateBreakDuration logs₂ = calculateBreakDuration exC1)) :=
  ⟨by decide, claim_C1_break_greedy exC1 (by decide)⟩

/-- C4 (amended): `breakCount` is `min(#break-starts, #break-ends)`; the
greedy pairing's matched-pair count never exceeds it, but they can differ
when an end precedes every start, so `breakCount` is an upper bound rather
than the exact matched-pair count. Trailing unmatched starts beyond the
number of ends are still excluded. -/
theorem claim_C4_break_count (logs : List Row) (hwf : WFLogs logs) :
    countBreaks logs =
      min ((logs.filter (fun log => log.keyword == KEYWORDS.BREAK_START)).length)
        ((logs.filter (fun log => log.keyword == KEYWORDS.BREAK_END)).length) ∧
    ∃ starts ends : List Int,
      starts.Sorted (· ≤ ·) ∧ ends.Sorted (· ≤ ·) ∧
      List.Perm (starts.map some)
        ((logs.filter (fun log => log.keyword == KEYWORDS.BREAK_START)).map
          (fun log => timeToMinutes log.time)) ∧
      List.Perm (ends.map some)
        ((logs.filter (fun log => log.keyword == KEYWORDS.BREAK_END)).map
          (fun log => timeToMinutes log.time)) ∧
      calculateBreakDuration logs = some ((specPairBreaks starts ends).1) ∧
      (specPairBreaks starts ends).2 ≤ countBreaks logs := by
  obtain ⟨starts, ends, _, _, h3, h4, h5, h6, h7, hlen1, hlen2⟩ := break_spec logs hwf
  refine ⟨rfl, starts, ends, h3, h4, h5, h6, h7, ?_⟩
  have hcount := specPair_count_le starts ends
  unfold countBreaks
  rw [← hlen1, ← hlen2]
  exact le_min hcount.1 hcount.2

/-- A lone break end strictly before the lone break start, for the C4
counterexample and witness. -/
def exC4 : List Row :=
  [⟨"2024-01-05", "10:00", "Bob", "general", "#breakstart"⟩,
   ⟨"2024-01-05", "09:00", "Bob", "general", "#breakend"⟩]

/-- C4 counterexample: with one break start at 10:00 and one break end at
09:00, the greedy pairing forms no pair (0 matched pairs, 0 break minutes),
yet the reported `breakCount` is `min(1, 1) = 1`, refuting the claim that
`breakCount` equals the number of greedily formed pairs. -/
theorem claim_C4_break_count_counterexample :
    breakStartsOf exC4 = [some 600] ∧
    breakEndsOf exC4 = [some 540] ∧
    (specPairBreaks [600] [540]).2 = 0 ∧
    calculateBreakDuration exC4 = some 0 ∧
    countBreaks exC4 = 1 := by decide

/-- Witness for the amended C4 at the same end-before-start input. -/
theorem claim_C4_break_count_witness :
    WFLogs exC4 ∧
    (countBreaks exC4 =
      min ((exC4.filter (fun log => log.keyword == KEYWORDS.BREAK_START)).length)
        ((exC4.filter (fun log => log.keyword == KEYWORDS.BREAK_END)).length) ∧
    ∃ starts ends : List Int,
      starts.Sorted (· ≤ ·) ∧ ends.Sorted (· ≤ ·) ∧
      List.Perm (starts.map some)
        ((exC4.filter (fun log => log.keyword == KEYWORDS.BREAK_START)).map
          (fun log => timeToMinutes log.time)) ∧
      List.Perm (ends.map some)
        ((exC4.filter (fun log => log.keyword == KEYWORDS.BREAK_END)).map
          (fun log => timeToMinutes log.time)) ∧
      calculateBreakDuration exC4 = some ((specPairBreaks starts ends).1) ∧
      (specPairBreaks starts ends).2 ≤ countBreaks exC4) :=
  ⟨by decide, claim_C4_break_count exC4 (by decide)⟩

lemma matchesAt_iff : ∀ (sub l : List Char),
    matchesAt sub l = true ↔ ∃ rest, l = sub ++ rest := by
  intro sub
  induction sub with
  | nil =>
    intro l
    simp [matchesAt]
  | cons c cs ih =>
    intro l
    cases l with
    | nil =>
      simp [matchesAt]
    | cons d ds =>
      simp only [matchesAt, Bool.and_eq_true, decide_eq_true_eq, ih ds,
        List.cons_append]
      constructor
      · rintro ⟨rfl, rest, rfl⟩
        exact ⟨rest, rfl⟩
      · rintro ⟨rest, h⟩
        injection h with h1 h2
        exact ⟨h1.symm, rest, h2⟩

lemma occursIn_iff : ∀ (l sub : List Char),
    occursIn sub l = true ↔ ∃ pre post, l = pre ++ sub ++ post := by
  intro l
  induction l with
  | nil =>
    intro sub
    rw [show occursIn sub [] = matchesAt sub [] from rfl, matchesAt_iff]
    constructor
    · rintro ⟨rest, h⟩
      exact ⟨[], rest, by simpa using h⟩
    · rintro ⟨pre, post, h⟩
      rw [List.append_assoc] at h
      obtain ⟨h1, h2⟩ := List.append_eq_nil.mp h.symm
      obtain ⟨h3, h4⟩ := List.append_eq_nil.mp h2
      exact ⟨[], by rw [h3]; rfl⟩
  | cons c rest ih =>
    intro sub
    rw [show occursIn sub (c :: rest) =
      (matchesAt sub (c :: rest) || occursIn sub rest) from rfl]
    simp only [Bool.or_eq_true, matchesAt_iff, ih]
    constructor
    · rintro (⟨r, hr⟩ | ⟨pre, post, hp⟩)
      · exact ⟨[], r, by simpa using hr⟩
      · exact ⟨c :: pre, post, by rw [hp]; rfl⟩
    · rintro ⟨pre, post, hp⟩
      cases pre with
      | nil =>
        left
        exact ⟨post, by simpa using hp⟩
      | cons p ps =>
        right
        rw [List.cons_append, List.cons_append] at hp
        injection hp with h1 h2
        exact ⟨ps, post, by rw [h2]⟩

lemma jsIncludes_iff (s sub : String) :
    jsIncludes s sub = true ↔ ∃ pre post, s.data = pre ++ sub.data ++ post :=
  occursIn_iff s.data sub.data

lemma extractKeyword_chain (text : String) :
    extractKeyword text =
      (if jsIncludes (toLowerStr text) KEYWORDS.ENTRY then some KEYWORDS.ENTRY
       else if jsIncludes (toLowerStr text) KEYWORDS.EXIT then some KEYWORDS.EXIT
       else if jsIncludes (toLowerStr text) KEYWORDS.DAILY_TASK then
         some KEYWORDS.DAILY_TASK
       else if jsIncludes (toLowerStr text) KEYWORDS.DAILY_REPORT then
         some KEYWORDS.DAILY_REPORT
       else if jsIncludes (toLowerStr text) KEYWORDS.LUNCH_START then
         some KEYWORDS.LUNCH_START
       else if jsIncludes (toLowerStr text) KEYWORDS.LUNCH_END then
         some KEYWORDS.LUNCH_END
       else if jsIncludes (toLowerStr text) KEYWORDS.BREAK_START then
         some KEYWORDS.BREAK_START
       else if jsIncludes (toLowerStr text) KEYWORDS.BREAK_END then
         some KEYWORDS.BREAK_END
       else none) := by
  unfold extractKeyword ALL_KEYWORDS
  by_cases h1 : jsIncludes (toLowerStr text) KEYWORDS.ENTRY
  · rw [List.find?_cons_of_pos _ h1, if_pos h1]
  rw [List.find?_cons_of_neg _ h1, if_neg h1]
  by_cases h2 : jsIncludes (toLowerStr text) KEYWORDS.EXIT
  · rw [List.find?_cons_of_pos _ h2, if_pos h2]
  rw [List.find?_cons_of_neg _ h2, if_neg h2]
  by_cases h3 : jsIncludes (toLowerStr text) KEYWORDS.DAILY_TASK
  · rw [List.find?_cons_of_pos _ h3, if_pos h3]
  rw [List.find?_cons_of_neg _ h3, if_neg h3]
  by_cases h4 : jsIncludes (toLowerStr text) KEYWORDS.DAILY_REPORT
  · rw [List.find?_cons_of_pos _ h4, if_pos h4]
  rw [List.find?_cons_of_neg _ h4, if_neg h4]
  by_cases h5 : jsIncludes (toLowerStr text) KEYWORDS.LUNCH_START
  · rw [List.find?_cons_of_pos _ h5, if_pos h5]
  rw [List.find?_cons_of_neg _ h5, if_neg h5]
  by_cases h6 : jsIncludes (toLowerStr text) KEYWORDS.LUNCH_END
  · rw [List.find?_cons_of_pos _ h6, if_pos h6]
  rw [List.find?_cons_of_neg _ h6, if_neg h6]
  by_cases h7 : jsIncludes (toLowerStr text) KEYWORDS.BREAK_START
  · rw [List.find?_cons_of_pos _ h7, if_pos h7]
  rw [List.find?_cons_of_neg _ h7, if_neg h7]
  by_cases h8 : jsIncludes (toLowerStr text) KEYWORDS.BREAK_END
  · rw [List.find?_cons_of_pos _ h8, if_pos h8]
  rw [List.find?_cons_of_neg _ h8, if_neg h8]
  rfl

/-- C9: the Keyword Classifier lower-cases the text and tests the fixed
vocabulary in its fixed enumeration order, returning the first keyword that
occurs as a contiguous substring anywhere in the lowered text; it returns
`null` exactly when no keyword occurs; it is a pure function of the text. -/
theorem claim_C9_classifier (text : String) :
    extractKeyword text =
      (if jsIncludes (toLowerStr text) KEYWORDS.ENTRY then some KEYWORDS.ENTRY
       else if jsIncludes (toLowerStr text) KEYWORDS.EXIT then some KEYWORDS.EXIT
       else if jsIncludes (toLowerStr text) KEYWORDS.DAILY_TASK then
         some KEYWORDS.DAILY_TASK
       else if jsIncludes (toLowerStr text) KEYWORDS.DAILY_REPORT then
         some KEYWORDS.DAILY_REPORT
       else if jsIncludes (toLowerStr text) KEYWORDS.LUNCH_START then
         some KEYWORDS.LUNCH_START
       else if jsIncludes (toLowerStr text) KEYWORDS.LUNCH_END then
         some KEYWORDS.LUNCH_END
       else if jsIncludes (toLowerStr text) KEYWORDS.BREAK_START then
         some KEYWORDS.BREAK_START
       else if jsIncludes (toLowerStr text) KEYWORDS.BREAK_END then
         some KEYWORDS.BREAK_END
       else none) ∧
    (∀ k, extractKeyword text = some k →
      k ∈ ALL_KEYWORDS ∧
      ∃ pre post, (toLowerStr text).data = pre ++ k.data ++ post) ∧
    (extractKeyword text = none ↔
      ∀ k ∈ ALL_KEYWORDS,
        ¬ ∃ pre post, (toLowerStr text).data = pre ++ k.data ++ post) := by
  refine ⟨extractKeyword_chain text, ?_, ?_⟩
  · intro k h
    refine ⟨List.mem_of_find?_eq_some h, ?_⟩
    exact (jsIncludes_iff _ _).mp (List.find?_some h)
  · unfold extractKeyword
    rw [List.find?_eq_none]
    constructor
    · intro h k hk hocc
      exact h k hk ((jsIncludes_iff _ _).mpr hocc)
    · intro h k hk hinc
      exact h k hk ((jsIncludes_iff _ _).mp hinc)
